import Mathlib

/-!
Verification of the cross-provider conversation adapter in
`src/app/services/gemini.server.js` (harmony-assistant).

The adapter translates a canonical (Claude-style) chat history and tool
declarations into the Gemini request schema, drives a streaming call, and
re-encodes the streamed/aggregated response into a canonical assistant
message.  Below is a shallow embedding of that file: JavaScript objects are
modelled by inductive value types, `JSON.parse` (a platform builtin) is a
parameter `parse : String → Option JVal` (`none` = the builtin throws), and
code that can throw returns `Except String`.
-/

/-- A JSON-like JavaScript value (tool arguments, schemas, parsed payloads). -/
inductive JVal where
  | jnull
  | jbool (b : Bool)
  | jnum (n : Int)
  | jstr (s : String)
  | jarr (elems : List JVal)
  | jobj (fields : List (String × JVal))
deriving Repr

/-- A canonical content block inside a turn's `content` array:
`{type:'text', text}` blocks, `{type:'tool_result', tool_use_id, content}`
blocks, and any other block shape (e.g. images), identified by its tag. -/
inductive Block where
  | text (t : String)
  | tool_result (tool_use_id : String) (content : List Block)
  | other (tag : String)
deriving Repr

/-- A canonical turn's `content` field: either a plain string or an array of
content blocks. -/
inductive Content where
  | str (s : String)
  | blocks (l : List Block)
deriving Repr

/-- An entry of an assistant turn's `tool_calls` array: an invocation
identifier plus a `function` record carrying the tool name and arguments.
`formatHistoryForGemini` reads `tool_call.function.name` and
`tool_call.function.arguments`. -/
structure ToolCall where
  id : String
  name : String
  arguments : JVal
deriving Repr

/-- A canonical conversation turn, as consumed by `formatHistoryForGemini`.
`tool_calls` defaults to the empty list (JS `undefined` is falsy) and `name`
is only read on `role = "tool"` turns. -/
structure Msg where
  role : String
  content : Content
  tool_calls : List ToolCall := []
  name : String := ""
deriving Repr

/-- A part of a Gemini turn: `{text}`, `{functionCall:{name,args}}` or
`{functionResponse:{name,response}}`. -/
inductive GPart where
  | text (t : String)
  | functionCall (name : String) (args : JVal)
  | functionResponse (name : String) (response : JVal)
deriving Repr

/-- A Gemini-format turn (`{role, parts}`). -/
structure GTurn where
  role : String
  parts : List GPart
deriving Repr

/-- The text-extraction used for assistant/user turns:
`content.filter(c => c.type === 'text' && typeof c.text === 'string')
        .map(c => c.text).join('\n')`.
In the model a `text` block always carries a string, so the `typeof` guard
is implied by the block tag. -/
def textOfBlocks (l : List Block) : String :=
  String.intercalate "\n" (l.filterMap fun b =>
    match b with
    | .text t => some t
    | _ => none)

/-- The `textContent` computation shared by the assistant and user branches of
`formatHistoryForGemini`: a string passes through, an array goes through
`textOfBlocks`. -/
def extractText : Content → String
  | .str s => s
  | .blocks l => textOfBlocks l

mutual

/-- Encoding of a content block as the plain JS value it is at runtime;
used when a `tool` turn's non-string `content` is passed through to
`functionResponse.response` unparsed. -/
def blockToJVal : Block → JVal
  | .text t => .jobj [("type", .jstr "text"), ("text", .jstr t)]
  | .tool_result id c => .jobj [("type", .jstr "tool_result"),
      ("tool_use_id", .jstr id), ("content", .jarr (blocksToJVal c))]
  | .other tag => .jobj [("type", .jstr tag)]

/-- Elementwise `blockToJVal` over a block list. -/
def blocksToJVal : List Block → List JVal
  | [] => []
  | b :: r => blockToJVal b :: blocksToJVal r

end

/-- Translation of one canonical turn by `formatHistoryForGemini`'s `map`
callback.  `.ok none` models the callback returning `null` (later removed by
`filter(Boolean)`); `.error` models a thrown exception (`JSON.parse` on a
malformed payload, or property access on `undefined`). -/
def formatTurn (parse : String → Option JVal) (msg : Msg) :
    Except String (Option GTurn) :=
  if msg.role = "assistant" then
    if msg.tool_calls.length > 0 then
      .ok (some (GTurn.mk "model"
        (msg.tool_calls.map (fun tc => .functionCall tc.name tc.arguments))))
    else
      .ok (some (GTurn.mk "model" [.text (extractText msg.content)]))
  else if msg.role = "user" then
    match msg.content with
    | .blocks (.tool_result tid rc :: _) =>
      match rc with
      | .text t :: _ =>
        match parse t with
        | some j => .ok (some (GTurn.mk "function" [.functionResponse tid j]))
        | none => .error "JSON.parse: invalid tool_result payload"
      | _ => .error "JSON.parse: tool_result content[0].text is not a string"
    | _ => .ok (some (GTurn.mk "user" [.text (extractText msg.content)]))
  else if msg.role = "tool" then
    match msg.content with
    | .str s =>
      match parse s with
      | some j => .ok (some (GTurn.mk "function" [.functionResponse msg.name j]))
      | none => .error "JSON.parse: invalid tool content"
    | .blocks l =>
      .ok (some (GTurn.mk "function"
        [.functionResponse msg.name (.jarr (blocksToJVal l))]))
  else
    .ok none

/-- The `messages.map(...)` pass of `formatHistoryForGemini`: left-to-right,
the first thrown exception aborts the whole call. -/
def mapFormat (parse : String → Option JVal) :
    List Msg → Except String (List (Option GTurn))
  | [] => .ok []
  | m :: ms =>
    match formatTurn parse m with
    | .error e => .error e
    | .ok r =>
      match mapFormat parse ms with
      | .error e => .error e
      | .ok rs => .ok (r :: rs)

/-- The whole `formatHistoryForGemini(messages)`: map each turn, then drop the
`null`-mapped entries (`.filter(Boolean)`). -/
def formatHistoryForGemini (parse : String → Option JVal) (messages : List Msg) :
    Except String (List GTurn) :=
  match mapFormat parse messages with
  | .error e => .error e
  | .ok l => .ok (l.filterMap id)

/-- The helper `mapFinishReason(reason)`: the `switch` over Gemini's finish reason.
An absent reason (`undefined`) is `none`; the `switch` default maps anything
unrecognized to `end_turn`. -/
def mapFinishReason (reason : Option String) : String :=
  match reason with
  | some r =>
    if r = "STOP" then "end_turn"
    else if r = "TOOL_USE" then "tool_use"
    else if r = "MAX_TOKENS" then "max_tokens"
    else "end_turn"
  | none => "end_turn"

/-- A content block of the canonical assistant message the adapter returns:
`{type:'text', text}` or `{type:'tool_use', id, name, input}`. -/
inductive OutBlock where
  | text (t : String)
  | tool_use (id : String) (name : String) (input : JVal)
deriving Repr

/-- The re-encoding of one Gemini `functionCall` into a canonical tool-use
block, as written in `streamConversation`:
`{ type: 'tool_use', id: geminiCall.name, name: geminiCall.name,
   input: geminiCall.args }` — the `id` is the tool name itself. -/
def toolUseOfFunctionCall (name : String) (args : JVal) : OutBlock :=
  .tool_use name name args

/-- The final canonical assistant message built by `streamConversation`. -/
structure FinalMessage where
  role : String
  content : List OutBlock
  model : String
  stop_reason : String
deriving Repr

/-- A candidate of the aggregated Gemini response: its `content.parts` and
its `finishReason`. -/
structure Candidate where
  parts : List GPart
  finishReason : Option String
deriving Repr

/-- The `geminiToolCalls` extraction:
`responseCandidate.content?.parts.filter(p => !!p.functionCall)
  .map(p => p.functionCall) || []`, yielding `(name, args)` pairs in
response order. -/
def geminiToolCallsOf (c : Candidate) : List (String × JVal) :=
  c.parts.filterMap fun p =>
    match p with
    | .functionCall n a => some (n, a)
    | _ => none

/-- The construction of the `finalMessage` object at the
end of `streamConversation`, from the accumulated text and the terminal
candidate.  Model string is `AppConfig.api.gemini.defaultModel`. -/
def buildFinalMessage (fullResponseText : String) (cand : Candidate) :
    FinalMessage :=
  let calls := geminiToolCallsOf cand
  { role := "assistant"
    content :=
      if calls.length > 0 then
        calls.map (fun c => toolUseOfFunctionCall c.1 c.2)
      else
        [.text fullResponseText]
    model := "gemini-2.5-pro"
    stop_reason := mapFinishReason cand.finishReason }

/-- State of the chunk loop in `streamConversation`: the sequence of `onText`
invocations made so far (in order, with their arguments) and the
`fullResponseText` accumulator. -/
structure StreamLoopState where
  events : List String
  fullResponseText : String
deriving Repr

/-- The `for await (const chunk of result.stream)` loop: for each chunk text,
if it is non-empty (JS truthiness of a string), call `onText` when that
handler is supplied and append the chunk to the accumulator. -/
def streamLoop (hasOnText : Bool) (chunks : List String) : StreamLoopState :=
  chunks.foldl
    (fun st c =>
      if c ≠ "" then
        { events := if hasOnText then st.events ++ [c] else st.events,
          fullResponseText := st.fullResponseText ++ c }
      else st)
    ⟨[], ""⟩

/-- Which of the three stream handlers the caller supplied (each is tested
for truthiness before being invoked). -/
structure Handlers where
  hasOnText : Bool
  hasOnToolUse : Bool
  hasOnMessage : Bool
deriving Repr

/-- The provider's behaviour for one `generateContentStream` call, as far as
the adapter observes it: the stream's chunk texts followed by the aggregated
response's candidate list. -/
structure ProviderResponse where
  chunks : List String
  candidates : List Candidate
deriving Repr

/-- Everything observable from one `streamConversation` call: the `onText`
arguments, the `onToolUse` arguments (in invocation order), the `onMessage`
arguments, and the returned message. -/
structure StreamResult where
  textEvents : List String
  toolUseEvents : List OutBlock
  messageEvents : List FinalMessage
  returnValue : FinalMessage
deriving Repr

/-- The signature string tested by
`error.message.includes("First parameter has member 'readable' that is not a
ReadableStream")`. -/
def readableStreamErrorSignature : String :=
  "First parameter has member \x27readable\x27 that is not a ReadableStream"

/-- The replacement error message thrown for the known transport fault. -/
def streamingUnavailableMessage : String :=
  "Streaming is temporarily unavailable due to a ReadableStream compatibility issue. Please try again or contact support if the issue persists."

/-- Model of `String.prototype.includes`: some index of `s` starts the substring
`pat`. -/
def containsSubstring (s pat : String) : Bool :=
  (List.range (s.length + 1)).any fun i => pat.toList.isPrefixOf (s.toList.drop i)

/-- The `catch` block around `generateContentStream`: if the rejection's
message is non-empty (JS truthiness) and contains the known signature, a new
user-facing error is thrown; otherwise the original error is re-thrown
unchanged. -/
def handleGenerateContentError (msg : String) : String :=
  if msg ≠ "" ∧ containsSubstring msg readableStreamErrorSignature = true then
    streamingUnavailableMessage
  else msg

/-- A canonical tool declaration / its Gemini form.  The canonical input has
`input_schema` and no `parameters`; `transformToolsForGemini` moves the
(cleaned) schema to `parameters`.  An absent key is `none`. -/
structure ToolDecl where
  name : String
  description : String
  input_schema : Option JVal := none
  parameters : Option JVal := none
deriving Repr

/-- JS truthiness of a JSON-like value (`if (newTool.input_schema)`):
objects and arrays are always truthy, `null`/`false`/`0`/`""` are falsy. -/
def jtruthy : JVal → Bool
  | .jnull => false
  | .jbool b => b
  | .jnum n => n != 0
  | .jstr s => s ≠ ""
  | .jarr _ => true
  | .jobj _ => true

/-- The test `includes(params[key])` over the enum/date-time list, negated: `includes` uses
strict equality, so it holds exactly of the strings "enum" and "date-time". -/
def isEnumOrDateTime : JVal → Bool
  | .jstr s => s = "enum" || s = "date-time"
  | _ => false

/-- The check of `params.type` against the string type tag, on an object's field list (first binding of
the "type" key, as JS object keys are unique). -/
def typeFieldIsString (fields : List (String × JVal)) : Bool :=
  match fields.lookup "type" with
  | some (.jstr s) => s = "string"
  | _ => false

mutual

/-- The cleaner `cleanParameters(params)`: non-objects (and `null`) are returned as is;
arrays are rebuilt index by index; objects are rebuilt key by key with the
`format` / `additional_properties` removals. -/
def cleanParameters : JVal → JVal
  | .jarr elems => .jarr (cleanElems elems)
  | .jobj fields => .jobj (cleanFields (typeFieldIsString fields) fields)
  | v => v

/-- The `for (const key in params)` loop over an array's indices:
`cleanedParams[key] = cleanParameters(params[key])` for every element (an
index key is never "format" or "additional_properties"). -/
def cleanElems : List JVal → List JVal
  | [] => []
  | v :: rest => cleanParameters v :: cleanElems rest

/-- The `for (const key in params)` loop over an object's own keys, with
`typeIsString` the value of `params.type === 'string'` (constant during the
loop — the source object is only read).  A `format` key whose value is not
"enum"/"date-time" is skipped when the type is string; an
`additional_properties` key is always skipped; every other key is kept with
its value cleaned recursively. -/
def cleanFields (typeIsString : Bool) : List (String × JVal) → List (String × JVal)
  | [] => []
  | (k, v) :: rest =>
    if k = "format" ∧ typeIsString = true ∧ isEnumOrDateTime v = false then
      cleanFields typeIsString rest
    else if k ≠ "additional_properties" then
      (k, cleanParameters v) :: cleanFields typeIsString rest
    else
      cleanFields typeIsString rest

end

/-- The normalizer `transformToolsForGemini(tools)`: per tool, take a shallow copy; if its
`input_schema` is truthy, set `parameters` to the cleaned schema and delete
`input_schema`; otherwise the copy is returned unchanged. -/
def transformToolsForGemini (tools : List ToolDecl) : List ToolDecl :=
  tools.map fun tool =>
    match tool.input_schema with
    | some v =>
      if jtruthy v then
        { tool with parameters := some (cleanParameters v), input_schema := none }
      else tool
    | none => tool

mutual

/-- Recursive absence of the key "additional_properties" (the property the
cleaner must remove at every nesting level). -/
def noAddProps : JVal → Bool
  | .jarr elems => noAddPropsList elems
  | .jobj fields => noAddPropsFields fields
  | _ => true

/-- Conjunction of `noAddProps` over an array's elements. -/
def noAddPropsList : List JVal → Bool
  | [] => true
  | v :: rest => noAddProps v && noAddPropsList rest

/-- Conjunction of `noAddProps` over an object's fields. -/
def noAddPropsFields : List (String × JVal) → Bool
  | [] => true
  | (k, v) :: rest => decide (k ≠ "additional_properties") && noAddProps v && noAddPropsFields rest

end

/-- The driver `streamConversation`, with the remote provider abstracted: the adapter
formats the tools and the history (the history formatting can throw), then
issues the call whose outcome `callOutcome` is chosen by the environment.
A rejected call goes through `handleGenerateContentError`; a fulfilled call
is consumed chunk by chunk, then the first candidate of the aggregated
response drives tool-use dispatch and the final message.  Absence of a
candidate throws. -/
def streamConversation (parse : String → Option JVal) (messages : List Msg)
    (tools : List ToolDecl) (handlers : Handlers)
    (callOutcome : Except String ProviderResponse) :
    Except String StreamResult :=
  let _functionDeclarations :=
    if tools.length > 0 then some (transformToolsForGemini tools) else none
  match formatHistoryForGemini parse messages with
  | .error e => .error e
  | .ok _geminiHistory =>
    match callOutcome with
    | .error e => .error (handleGenerateContentError e)
    | .ok resp =>
      let st := streamLoop handlers.hasOnText resp.chunks
      match resp.candidates.head? with
      | none => .error "No response candidate found from Gemini."
      | some cand =>
        let calls := geminiToolCallsOf cand
        let toolEvents :=
          if handlers.hasOnToolUse ∧ calls.length > 0 then
            calls.map (fun c => toolUseOfFunctionCall c.1 c.2)
          else []
        let fm := buildFinalMessage st.fullResponseText cand
        .ok { textEvents := st.events
              toolUseEvents := toolEvents
              messageEvents := if handlers.hasOnMessage then [fm] else []
              returnValue := fm }

/-!
Heap model of `transformToolsForGemini` / `cleanParameters`.

The pure functions above capture the values these functions compute; to talk
about mutation (claim on frame effects) the same two source functions are
embedded once more against an explicit heap: JS objects and arrays live at
addresses, primitives are immediate.  `{...tool}` is an allocation copying
the field list; `cleanedParams[key] = ...`, `newTool.parameters = ...` and
`delete newTool.input_schema` are writes to a node.  Recursion through the
heap is fuel-bounded (the JS originals diverge on cyclic inputs; fuel
exhaustion just returns the argument, and the non-mutation theorem holds for
every fuel). -/

/-- An immediate JS value: a primitive, or a reference to a heap node. -/
inductive HVal where
  | hnull
  | hbool (b : Bool)
  | hnum (n : Int)
  | hstr (s : String)
  | href (a : Nat)
deriving Repr, DecidableEq

/-- A heap node: a plain object (ordered own fields) or an array. -/
inductive HNode where
  | hobj (fields : List (String × HVal))
  | harr (elems : List HVal)
deriving Repr, DecidableEq

/-- A heap: the next fresh address and the store. -/
structure Heap where
  next : Nat
  mem : Nat → Option HNode

/-- Allocate a node at the next fresh address. -/
def Heap.alloc (h : Heap) (n : HNode) : Heap × Nat :=
  ({ next := h.next + 1,
     mem := fun a => if a = h.next then some n else h.mem a }, h.next)

/-- Overwrite the node stored at an address. -/
def Heap.write (h : Heap) (a : Nat) (n : HNode) : Heap :=
  { h with mem := fun x => if x = a then some n else h.mem x }

/-- JS property assignment on a field list: overwrite an existing binding in
place, else append (insertion order is preserved). -/
def objSetField (fields : List (String × HVal)) (k : String) (v : HVal) :
    List (String × HVal) :=
  if (fields.lookup k).isSome then
    fields.map (fun kv => if kv.1 = k then (k, v) else kv)
  else
    fields ++ [(k, v)]

/-- Property assignment on the node at address `a` (no-op on a non-object, which
never occurs in the uses below). -/
def Heap.setObjField (h : Heap) (a : Nat) (k : String) (v : HVal) : Heap :=
  match h.mem a with
  | some (.hobj fields) => h.write a (.hobj (objSetField fields k v))
  | _ => h

/-- Property deletion on the node at address `a`. -/
def Heap.delObjField (h : Heap) (a : Nat) (k : String) : Heap :=
  match h.mem a with
  | some (.hobj fields) => h.write a (.hobj (fields.filter (fun kv => kv.1 ≠ k)))
  | _ => h

/-- Element append on the array node at address `a` (index assignment in order). -/
def Heap.pushElem (h : Heap) (a : Nat) (v : HVal) : Heap :=
  match h.mem a with
  | some (.harr elems) => h.write a (.harr (elems ++ [v]))
  | _ => h

/-- JS truthiness of an immediate value; references (objects, arrays) are
always truthy. -/
def hvalTruthy : HVal → Bool
  | .hnull => false
  | .hbool b => b
  | .hnum n => n != 0
  | .hstr s => s ≠ ""
  | .href _ => true

/-- The enum/date-time membership test, negated, on immediate values. -/
def hvalIsEnumOrDateTime : HVal → Bool
  | .hstr s => s = "enum" || s = "date-time"
  | _ => false

/-- The string-type check of `params.type` on a heap object's fields. -/
def htypeFieldIsString (fields : List (String × HVal)) : Bool :=
  match fields.lookup "type" with
  | some (.hstr s) => s = "string"
  | _ => false

mutual

/-- Heap version of `cleanParameters`: a primitive is returned unchanged; a
reference is dereferenced, a fresh empty node of the same container shape is
allocated (`Array.isArray(params) ? [] : {}`), and the key loop fills it. -/
def cleanParametersH : Nat → Heap → HVal → Heap × HVal
  | 0, h, v => (h, v)
  | fuel + 1, h, v =>
    match v with
    | .href a =>
      match h.mem a with
      | some (.hobj fields) =>
        let ha := h.alloc (.hobj [])
        (cleanFieldsH fuel (htypeFieldIsString fields) ha.2 ha.1 fields, .href ha.2)
      | some (.harr elems) =>
        let ha := h.alloc (.harr [])
        (cleanElemsH fuel ha.2 ha.1 elems, .href ha.2)
      | none => (h, v)
    | _ => (h, v)

/-- Heap version of the object key loop: skip a free-form string `format`,
skip `additional_properties`, otherwise clean the value and assign it on the
freshly allocated object at `dst`. -/
def cleanFieldsH : Nat → Bool → Nat → Heap → List (String × HVal) → Heap
  | _, _, _, h, [] => h
  | fuel, typeIsString, dst, h, (k, v) :: rest =>
    if k = "format" ∧ typeIsString = true ∧ hvalIsEnumOrDateTime v = false then
      cleanFieldsH fuel typeIsString dst h rest
    else if k ≠ "additional_properties" then
      let hc := cleanParametersH fuel h v
      cleanFieldsH fuel typeIsString dst (hc.1.setObjField dst k hc.2) rest
    else
      cleanFieldsH fuel typeIsString dst h rest

/-- Heap version of the array index loop: clean each element and assign it at
its index on the fresh array at `dst`. -/
def cleanElemsH : Nat → Nat → Heap → List HVal → Heap
  | _, _, h, [] => h
  | fuel, dst, h, v :: rest =>
    let hc := cleanParametersH fuel h v
    cleanElemsH fuel dst (hc.1.pushElem dst hc.2) rest

end

/-- Heap version of the body of `transformToolsForGemini`'s `map` callback:
`const newTool = {...tool}` allocates a shallow copy; if the copy's
`input_schema` is truthy, `newTool.parameters` is set to the cleaned schema
and `input_schema` is deleted — both writes land on the copy, never on the
original. -/
def transformToolH (fuel : Nat) (h : Heap) (v : HVal) : Heap × HVal :=
  match v with
  | .href a =>
    match h.mem a with
    | some (.hobj fields) =>
      let ha := h.alloc (.hobj fields)
      match fields.lookup "input_schema" with
      | some sv =>
        if hvalTruthy sv then
          let hc := cleanParametersH fuel ha.1 sv
          let h3 := hc.1.setObjField ha.2 "parameters" hc.2
          (h3.delObjField ha.2 "input_schema", .href ha.2)
        else (ha.1, .href ha.2)
      | none => (ha.1, .href ha.2)
    | _ => (h, v)
  | _ => (h, v)

/-- Heap version of `transformToolsForGemini`: map `transformToolH` over the
declarations, threading the heap left to right. -/
def transformToolsH (fuel : Nat) (h : Heap) : List HVal → Heap × List HVal
  | [] => (h, [])
  | t :: ts =>
    let ht := transformToolH fuel h t
    let hts := transformToolsH fuel ht.1 ts
    (hts.1, ht.2 :: hts.2)

/-- A concrete two-object heap: a tool declaration at address 0 whose
`input_schema` points at a schema object at address 1. -/
def sampleHeap : Heap :=
  { next := 2
    mem := fun a =>
      if a = 0 then
        some (.hobj [("name", .hstr "t"), ("input_schema", .href 1)])
      else if a = 1 then
        some (.hobj [("type", .hstr "string"), ("format", .hstr "email"),
                     ("additional_properties", .hstr "x")])
      else none }

/-!  Theorems.  -/

theorem mapFinishReason_default (r : String) (h1 : r ≠ "STOP")
    (h2 : r ≠ "TOOL_USE") (h3 : r ≠ "MAX_TOKENS") :
    mapFinishReason (some r) = "end_turn" := by
  simp [mapFinishReason, h1, h2, h3]

/-- C7 — the stop-reason mapping is the fixed total function sending "STOP"
to `end_turn`, "TOOL_USE" to `tool_use`, "MAX_TOKENS" to `max_tokens`, an
absent finish reason to `end_turn`, and every other provider reason to
`end_turn`; being a total Lean function it cannot raise. -/
theorem finish_reason_total :
    mapFinishReason (some "STOP") = "end_turn"
    ∧ mapFinishReason (some "TOOL_USE") = "tool_use"
    ∧ mapFinishReason (some "MAX_TOKENS") = "max_tokens"
    ∧ mapFinishReason none = "end_turn"
    ∧ ∀ r : String, r ≠ "STOP" → r ≠ "TOOL_USE" → r ≠ "MAX_TOKENS" →
        mapFinishReason (some r) = "end_turn" := by
  exact ⟨rfl, rfl, rfl, rfl, fun r h1 h2 h3 => mapFinishReason_default r h1 h2 h3⟩

/-- Witness for C7 at the provider reason "SAFETY", which is outside the
known set. -/
theorem finish_reason_total_witness :
    mapFinishReason (some "SAFETY") = "end_turn" :=
  finish_reason_total.2.2.2.2 "SAFETY" (by decide) (by decide) (by decide)

theorem containsSubstring_empty_signature :
    containsSubstring "" readableStreamErrorSignature = false := by decide

theorem handleGenerateContentError_pos (em : String)
    (h : containsSubstring em readableStreamErrorSignature = true) :
    handleGenerateContentError em = streamingUnavailableMessage := by
  have hne : em ≠ "" := by
    intro he
    rw [he] at h
    rw [containsSubstring_empty_signature] at h
    exact Bool.false_ne_true h
  unfold handleGenerateContentError
  rw [if_pos ⟨hne, h⟩]

theorem handleGenerateContentError_neg (em : String)
    (h : containsSubstring em readableStreamErrorSignature = false) :
    handleGenerateContentError em = em := by
  unfold handleGenerateContentError
  rw [if_neg]
  intro hc
  rw [h] at hc
  exact Bool.false_ne_true hc.2

/-- C6 — when the provider call rejects and history formatting itself
succeeded (so the call was actually issued), a rejection whose message
contains the known ReadableStream-shape signature makes `streamConversation`
fail with the single user-facing streaming-unavailable error, while any
other rejection propagates unchanged (no wrapping, no retry). -/
theorem transport_error_translation (parse : String → Option JVal)
    (messages : List Msg) (tools : List ToolDecl) (handlers : Handlers)
    (em : String) (gh : List GTurn)
    (hfmt : formatHistoryForGemini parse messages = .ok gh) :
    (containsSubstring em readableStreamErrorSignature = true →
      streamConversation parse messages tools handlers (.error em)
        = .error streamingUnavailableMessage)
    ∧ (containsSubstring em readableStreamErrorSignature = false →
      streamConversation parse messages tools handlers (.error em)
        = .error em) := by
  constructor
  · intro h
    unfold streamConversation
    rw [hfmt]
    show Except.error (handleGenerateContentError em)
      = Except.error streamingUnavailableMessage
    rw [handleGenerateContentError_pos em h]
  · intro h
    unfold streamConversation
    rw [hfmt]
    show Except.error (handleGenerateContentError em) = Except.error em
    rw [handleGenerateContentError_neg em h]

/-- Witness for C6: the signature itself as the rejection message is
translated, and an unrelated message propagates unchanged. -/
theorem transport_error_translation_witness :
    (streamConversation (fun _ => none) [] [] (Handlers.mk true true true)
        (.error readableStreamErrorSignature)
      = .error streamingUnavailableMessage)
    ∧ (streamConversation (fun _ => none) [] [] (Handlers.mk true true true)
        (.error "quota exceeded")
      = .error "quota exceeded") :=
  ⟨(transport_error_translation (fun _ => none) [] [] (Handlers.mk true true true)
      readableStreamErrorSignature [] rfl).1 (by decide),
   (transport_error_translation (fun _ => none) [] [] (Handlers.mk true true true)
      "quota exceeded" [] rfl).2 (by decide)⟩

theorem foldl_string_append_shift :
    ∀ (l : List String) (a : String),
      l.foldl (fun x y => x ++ y) a = a ++ l.foldl (fun x y => x ++ y) ""
  | [], a => (String.append_empty a).symm
  | c :: l, a => by
    simp only [List.foldl_cons]
    rw [foldl_string_append_shift l (a ++ c), foldl_string_append_shift l ("" ++ c)]
    rw [String.empty_append, String.append_assoc]

theorem string_join_cons (c : String) (l : List String) :
    String.join (c :: l) = c ++ String.join l := by
  simp only [String.join, List.foldl_cons]
  rw [foldl_string_append_shift l ("" ++ c), String.empty_append]

theorem streamLoop_go (b : Bool) :
    ∀ (chunks : List String) (ev : List String) (acc : String),
      chunks.foldl
        (fun (st : StreamLoopState) (c : String) =>
          if c ≠ "" then
            { events := if b then st.events ++ [c] else st.events,
              fullResponseText := st.fullResponseText ++ c }
          else st)
        ⟨ev, acc⟩ =
      (⟨ev ++ (if b then chunks.filter (fun c => c ≠ "") else []),
        acc ++ String.join (chunks.filter (fun c => c ≠ ""))⟩ : StreamLoopState)
  | [], ev, acc => by
    simp [String.join, String.append_empty]
  | c :: rest, ev, acc => by
    by_cases hc : c = ""
    · subst hc
      simp only [List.foldl_cons, List.filter_cons]
      rw [if_neg (by simp)]
      simp only [ne_eq, not_true_eq_false, if_false, ite_self]
      exact streamLoop_go b rest ev acc
    · simp only [List.foldl_cons, List.filter_cons]
      rw [if_pos (show c ≠ "" from hc)]
      rw [if_pos (show decide (c ≠ "") = true by simpa using hc)]
      rw [streamLoop_go b rest (if b then ev ++ [c] else ev) (acc ++ c)]
      rw [string_join_cons c (rest.filter (fun c => c ≠ ""))]
      cases b <;> simp [String.append_assoc]

theorem streamLoop_spec (b : Bool) (chunks : List String) :
    (streamLoop b chunks).events
        = (if b then chunks.filter (fun c => c ≠ "") else [])
    ∧ (streamLoop b chunks).fullResponseText
        = String.join (chunks.filter (fun c => c ≠ "")) := by
  unfold streamLoop
  rw [streamLoop_go b chunks [] ""]
  exact ⟨by simp, by simp [String.empty_append]⟩

theorem streamConversation_ok_spec (parse : String → Option JVal)
    (messages : List Msg) (tools : List ToolDecl) (handlers : Handlers)
    (chunks : List String) (cand : Candidate) (cands : List Candidate)
    (res : StreamResult)
    (hrun : streamConversation parse messages tools handlers
      (.ok ⟨chunks, cand :: cands⟩) = .ok res) :
    res = { textEvents := (streamLoop handlers.hasOnText chunks).events
            toolUseEvents :=
              if handlers.hasOnToolUse = true ∧ (geminiToolCallsOf cand).length > 0 then
                (geminiToolCallsOf cand).map (fun c => toolUseOfFunctionCall c.1 c.2)
              else []
            messageEvents :=
              if handlers.hasOnMessage = true then
                [buildFinalMessage (streamLoop handlers.hasOnText chunks).fullResponseText cand]
              else []
            returnValue :=
              buildFinalMessage (streamLoop handlers.hasOnText chunks).fullResponseText cand } := by
  unfold streamConversation at hrun
  revert hrun
  cases hfmt : formatHistoryForGemini parse messages with
  | error e => intro hrun; exact absurd hrun (by simp)
  | ok gh =>
    intro hrun
    simp only [List.head?] at hrun
    exact (Except.ok.injEq _ _).mp hrun.symm |>.symm ▸ rfl

theorem buildFinalMessage_with_calls (txt : String) (cand : Candidate)
    (h : geminiToolCallsOf cand ≠ []) :
    (buildFinalMessage txt cand).content
      = (geminiToolCallsOf cand).map (fun c => toolUseOfFunctionCall c.1 c.2) := by
  unfold buildFinalMessage
  simp only
  rw [if_pos (by simpa [List.length_pos] using h)]

theorem buildFinalMessage_no_calls (txt : String) (cand : Candidate)
    (h : geminiToolCallsOf cand = []) :
    (buildFinalMessage txt cand).content = [.text txt] := by
  unfold buildFinalMessage
  simp only
  rw [if_neg (by simp [h])]

/-- C3 — fragment fidelity of `streamConversation`: with `onText` supplied it
is called once per non-empty chunk, in arrival order, with exactly that
chunk (empty chunks produce no call, nothing is coalesced); without it no
call is made; and the final message is built from the concatenation of the
non-empty chunks in order. -/
theorem streaming_fragment_fidelity (parse : String → Option JVal)
    (messages : List Msg) (tools : List ToolDecl) (handlers : Handlers)
    (chunks : List String) (cand : Candidate) (cands : List Candidate)
    (res : StreamResult)
    (hrun : streamConversation parse messages tools handlers
      (.ok ⟨chunks, cand :: cands⟩) = .ok res) :
    (handlers.hasOnText = true →
      res.textEvents = chunks.filter (fun c => c ≠ ""))
    ∧ (handlers.hasOnText = false → res.textEvents = [])
    ∧ res.returnValue
        = buildFinalMessage (String.join (chunks.filter (fun c => c ≠ ""))) cand := by
  have hspec := streamConversation_ok_spec parse messages tools handlers
    chunks cand cands res hrun
  have hev := (streamLoop_spec handlers.hasOnText chunks).1
  have htx := (streamLoop_spec handlers.hasOnText chunks).2
  subst hspec
  refine ⟨fun hb => ?_, fun hb => ?_, ?_⟩
  · simpa [hb] using hev
  · simpa [hb] using hev
  · simpa using congrArg (fun t => buildFinalMessage t cand) htx

/-- Witness for C3: the spec §8 scenario — chunks "Hel", "", "lo!" yield
`onText` calls exactly ["Hel", "lo!"] and a final text "Hello!". -/
theorem streaming_fragment_fidelity_witness :
    (streamConversation (fun _ => none) [Msg.mk "user" (.str "hi") [] ""] []
        (Handlers.mk true false true)
        (.ok (ProviderResponse.mk ["Hel", "", "lo!"]
          [Candidate.mk [] (some "STOP")]))
      = .ok (StreamResult.mk ["Hel", "lo!"] []
          [FinalMessage.mk "assistant" [.text "Hello!"] "gemini-2.5-pro" "end_turn"]
          (FinalMessage.mk "assistant" [.text "Hello!"] "gemini-2.5-pro" "end_turn")))
    ∧ StreamResult.textEvents
        (StreamResult.mk ["Hel", "lo!"] []
          [FinalMessage.mk "assistant" [.text "Hello!"] "gemini-2.5-pro" "end_turn"]
          (FinalMessage.mk "assistant" [.text "Hello!"] "gemini-2.5-pro" "end_turn"))
        = ["Hel", "", "lo!"].filter (fun c => c ≠ "") :=
  ⟨rfl,
   (streaming_fragment_fidelity (fun _ => none) [Msg.mk "user" (.str "hi") [] ""] []
      (Handlers.mk true false true) ["Hel", "", "lo!"]
      (Candidate.mk [] (some "STOP")) [] _ rfl).1 rfl⟩

/-- C2 — tool-call exclusivity of the final message: when the terminal
candidate carries function calls, the returned content is exactly one
tool-use block per call in provider order, each with id and name equal to
the call's tool name and input equal to its args, and contains no text
block whatever text was streamed; with no function calls the content is a
single text block holding the whole accumulated text. -/
theorem final_message_tool_call_exclusivity (parse : String → Option JVal)
    (messages : List Msg) (tools : List ToolDecl) (handlers : Handlers)
    (chunks : List String) (cand : Candidate) (cands : List Candidate)
    (res : StreamResult)
    (hrun : streamConversation parse messages tools handlers
      (.ok ⟨chunks, cand :: cands⟩) = .ok res) :
    (geminiToolCallsOf cand ≠ [] →
      res.returnValue.content
          = (geminiToolCallsOf cand).map (fun c => OutBlock.tool_use c.1 c.1 c.2)
      ∧ ∀ b ∈ res.returnValue.content, ∀ s, b ≠ OutBlock.text s)
    ∧ (geminiToolCallsOf cand = [] →
      res.returnValue.content
          = [OutBlock.text (String.join (chunks.filter (fun c => c ≠ "")))]) := by
  have hspec := streamConversation_ok_spec parse messages tools handlers
    chunks cand cands res hrun
  have htx := (streamLoop_spec handlers.hasOnText chunks).2
  subst hspec
  constructor
  · intro hne
    have hcontent := buildFinalMessage_with_calls
      (streamLoop handlers.hasOnText chunks).fullResponseText cand hne
    refine ⟨by simpa [toolUseOfFunctionCall] using hcontent, ?_⟩
    intro b hb s
    simp only [hcontent] at hb
    rcases List.mem_map.mp hb with ⟨c, _, hcb⟩
    rw [← hcb]
    simp [toolUseOfFunctionCall]
  · intro hnil
    have hcontent := buildFinalMessage_no_calls
      (streamLoop handlers.hasOnText chunks).fullResponseText cand hnil
    simpa [htx] using hcontent

/-- Witness for C2: a candidate with two function calls and a text part
produces exactly two tool-use blocks and no text block, despite streamed
text. -/
theorem final_message_tool_call_exclusivity_witness :
    (streamConversation (fun _ => none) [] [] (Handlers.mk true true true)
        (.ok (ProviderResponse.mk ["ignored"]
          [Candidate.mk [.text "x", .functionCall "get_cart" .jnull,
              .functionCall "search_shop_catalog" (.jobj [("query", .jstr "guitar")])]
            (some "STOP")]))
      = .ok (StreamResult.mk ["ignored"]
          [OutBlock.tool_use "get_cart" "get_cart" .jnull,
           OutBlock.tool_use "search_shop_catalog" "search_shop_catalog"
             (.jobj [("query", .jstr "guitar")])]
          [FinalMessage.mk "assistant"
            [OutBlock.tool_use "get_cart" "get_cart" .jnull,
             OutBlock.tool_use "search_shop_catalog" "search_shop_catalog"
               (.jobj [("query", .jstr "guitar")])] "gemini-2.5-pro" "end_turn"]
          (FinalMessage.mk "assistant"
            [OutBlock.tool_use "get_cart" "get_cart" .jnull,
             OutBlock.tool_use "search_shop_catalog" "search_shop_catalog"
               (.jobj [("query", .jstr "guitar")])] "gemini-2.5-pro" "end_turn")))
    ∧ FinalMessage.content
        (FinalMessage.mk "assistant"
          [OutBlock.tool_use "get_cart" "get_cart" .jnull,
           OutBlock.tool_use "search_shop_catalog" "search_shop_catalog"
             (.jobj [("query", .jstr "guitar")])] "gemini-2.5-pro" "end_turn")
        = (geminiToolCallsOf
            (Candidate.mk [.text "x", .functionCall "get_cart" .jnull,
              .functionCall "search_shop_catalog" (.jobj [("query", .jstr "guitar")])]
              (some "STOP"))).map (fun c => OutBlock.tool_use c.1 c.1 c.2) :=
  ⟨rfl,
   ((final_message_tool_call_exclusivity (fun _ => none) [] [] (Handlers.mk true true true)
      ["ignored"]
      (Candidate.mk [.text "x", .functionCall "get_cart" .jnull,
        .functionCall "search_shop_catalog" (.jobj [("query", .jstr "guitar")])]
        (some "STOP")) [] _ rfl).1 (by simp [geminiToolCallsOf])).1⟩

/-- C4 — an assistant turn without tool calls translates to a "model" turn
with exactly one text part: the texts of its `text`-tagged blocks, in
order, joined by a newline; non-text blocks are skipped without error, so
blocks [text "a", tool_result ..., text "b"] yield "a\nb". -/
theorem assistant_text_concatenation (parse : String → Option JVal)
    (l : List Block) (nm : String) :
    formatTurn parse (Msg.mk "assistant" (.blocks l) [] nm)
      = .ok (some (GTurn.mk "model"
          [.text (String.intercalate "\n" (l.filterMap (fun b =>
            match b with
            | .text t => some t
            | _ => none)))]))
    ∧ formatTurn parse
        (Msg.mk "assistant"
          (.blocks [.text "a", .tool_result "call_1" [], .text "b"]) [] nm)
      = .ok (some (GTurn.mk "model" [.text "a\nb"])) :=
  ⟨rfl, rfl⟩

mutual

theorem noAddProps_cleanParameters : ∀ v : JVal, noAddProps (cleanParameters v) = true
  | .jnull => rfl
  | .jbool _ => rfl
  | .jnum _ => rfl
  | .jstr _ => rfl
  | .jarr elems => by
    rw [show cleanParameters (.jarr elems) = .jarr (cleanElems elems) from rfl]
    rw [show noAddProps (.jarr (cleanElems elems)) = noAddPropsList (cleanElems elems) from rfl]
    exact noAddPropsList_cleanElems elems
  | .jobj fields => by
    rw [show cleanParameters (.jobj fields)
        = .jobj (cleanFields (typeFieldIsString fields) fields) from rfl]
    rw [show noAddProps (.jobj (cleanFields (typeFieldIsString fields) fields))
        = noAddPropsFields (cleanFields (typeFieldIsString fields) fields) from rfl]
    exact noAddPropsFields_cleanFields (typeFieldIsString fields) fields

theorem noAddPropsList_cleanElems : ∀ l : List JVal, noAddPropsList (cleanElems l) = true
  | [] => rfl
  | v :: rest => by
    rw [show cleanElems (v :: rest) = cleanParameters v :: cleanElems rest from rfl]
    rw [show noAddPropsList (cleanParameters v :: cleanElems rest)
        = (noAddProps (cleanParameters v) && noAddPropsList (cleanElems rest)) from rfl]
    rw [noAddProps_cleanParameters v, noAddPropsList_cleanElems rest]
    rfl

theorem noAddPropsFields_cleanFields :
    ∀ (ts : Bool) (l : List (String × JVal)), noAddPropsFields (cleanFields ts l) = true
  | _, [] => rfl
  | ts, (k, v) :: rest => by
    rw [cleanFields]
    by_cases h1 : k = "format" ∧ ts = true ∧ isEnumOrDateTime v = false
    · rw [if_pos h1]
      exact noAddPropsFields_cleanFields ts rest
    · rw [if_neg h1]
      by_cases h2 : k ≠ "additional_properties"
      · rw [if_pos h2]
        rw [show noAddPropsFields ((k, cleanParameters v) :: cleanFields ts rest)
            = (decide (k ≠ "additional_properties") && noAddProps (cleanParameters v)
                && noAddPropsFields (cleanFields ts rest)) from rfl]
        rw [noAddProps_cleanParameters v, noAddPropsFields_cleanFields ts rest]
        simp [h2]
      · rw [if_neg h2]
        exact noAddPropsFields_cleanFields ts rest

end

theorem cleanElems_eq_map : ∀ l : List JVal, cleanElems l = l.map cleanParameters
  | [] => rfl
  | v :: rest => by
    rw [show cleanElems (v :: rest) = cleanParameters v :: cleanElems rest from rfl]
    rw [cleanElems_eq_map rest, List.map_cons]

theorem cleanFields_eq_filterMap :
    ∀ (ts : Bool) (l : List (String × JVal)),
      cleanFields ts l = l.filterMap (fun kv =>
        if kv.1 = "additional_properties" then none
        else if kv.1 = "format" ∧ ts = true ∧ isEnumOrDateTime kv.2 = false then none
        else some (kv.1, cleanParameters kv.2))
  | _, [] => rfl
  | ts, (k, v) :: rest => by
    rw [cleanFields, List.filterMap_cons]
    by_cases h1 : k = "format" ∧ ts = true ∧ isEnumOrDateTime v = false
    · rw [if_pos h1]
      have hk : ¬ k = "additional_properties" := by
        rw [h1.1]; decide
      simp only [if_neg hk, if_pos h1]
      exact cleanFields_eq_filterMap ts rest
    · rw [if_neg h1]
      by_cases h2 : k ≠ "additional_properties"
      · rw [if_pos h2]
        simp only [if_neg h2, if_neg h1]
        rw [cleanFields_eq_filterMap ts rest]
      · rw [if_neg h2]
        have hk : k = "additional_properties" := not_not.mp h2
        simp only [if_pos hk]
        exact cleanFields_eq_filterMap ts rest

/-- C5 — the normalizer moves a (truthy) `input_schema` to `parameters`,
cleaned: `additional_properties` is absent from the result at every nesting
level; at each object level a `format` key is dropped exactly when that
object's `type` is "string" and the format value is neither "enum" nor
"date-time" (so those two are retained, as is `format` under a non-string
type); arrays stay arrays, objects stay objects, and non-container leaves
pass through unchanged. -/
theorem schema_cleaning_spec (t : ToolDecl) (v : JVal)
    (hin : t.input_schema = some v) (htr : jtruthy v = true) :
    transformToolsForGemini [t]
        = [{ t with input_schema := none, parameters := some (cleanParameters v) }]
    ∧ (∀ w : JVal, noAddProps (cleanParameters w) = true)
    ∧ (∀ fields : List (String × JVal),
        cleanParameters (.jobj fields) = .jobj (fields.filterMap (fun kv =>
          if kv.1 = "additional_properties" then none
          else if kv.1 = "format" ∧ typeFieldIsString fields = true
              ∧ isEnumOrDateTime kv.2 = false then none
          else some (kv.1, cleanParameters kv.2))))
    ∧ (∀ elems : List JVal,
        cleanParameters (.jarr elems) = .jarr (elems.map cleanParameters))
    ∧ cleanParameters .jnull = .jnull
    ∧ (∀ b : Bool, cleanParameters (.jbool b) = .jbool b)
    ∧ (∀ n : Int, cleanParameters (.jnum n) = .jnum n)
    ∧ (∀ s : String, cleanParameters (.jstr s) = .jstr s) := by
  refine ⟨?_, noAddProps_cleanParameters, ?_, ?_, rfl, fun _ => rfl, fun _ => rfl,
    fun _ => rfl⟩
  · unfold transformToolsForGemini
    rw [List.map_singleton, hin]
    simp only [htr, if_true]
  · intro fields
    rw [show cleanParameters (.jobj fields)
        = .jobj (cleanFields (typeFieldIsString fields) fields) from rfl]
    rw [cleanFields_eq_filterMap (typeFieldIsString fields) fields]
  · intro elems
    rw [show cleanParameters (.jarr elems) = .jarr (cleanElems elems) from rfl]
    rw [cleanElems_eq_map elems]

/-- Witness for C5 at the spec's own example schema:
`{type:"string", format:"email", additional_properties:...}` loses both
keys, while a sibling declaration with `format:"enum"` keeps `format`. -/
theorem schema_cleaning_spec_witness :
    transformToolsForGemini
        [ToolDecl.mk "t" "d"
          (some (.jobj [("type", .jstr "string"), ("format", .jstr "email"),
            ("additional_properties", .jobj [])])) none]
      = [ToolDecl.mk "t" "d" none (some (.jobj [("type", .jstr "string")]))]
    ∧ cleanParameters (.jobj [("type", .jstr "string"), ("format", .jstr "enum")])
      = .jobj [("type", .jstr "string"), ("format", .jstr "enum")] :=
  ⟨(schema_cleaning_spec
      (ToolDecl.mk "t" "d"
        (some (.jobj [("type", .jstr "string"), ("format", .jstr "email"),
          ("additional_properties", .jobj [])])) none)
      (.jobj [("type", .jstr "string"), ("format", .jstr "email"),
        ("additional_properties", .jobj [])]) rfl rfl).1.trans (by rfl),
   by rfl⟩

theorem mapFormat_ok_map (parse : String → Option JVal) :
    ∀ (msgs : List Msg) (l : List (Option GTurn)), mapFormat parse msgs = .ok l →
      l = msgs.map (fun m =>
        match formatTurn parse m with
        | .ok r => r
        | .error _ => none)
  | [], l, h => by
    rw [show mapFormat parse [] = .ok [] from rfl] at h
    injection h with h'
    subst h'
    rfl
  | m :: ms, l, h => by
    rw [mapFormat] at h
    cases hf : formatTurn parse m with
    | error e => rw [hf] at h; exact absurd h (by simp)
    | ok r =>
      rw [hf] at h
      cases hm : mapFormat parse ms with
      | error e => rw [hm] at h; exact absurd h (by simp)
      | ok rs =>
        rw [hm] at h
        injection h with h'
        subst h'
        rw [List.map_cons, ← mapFormat_ok_map parse ms rs hm]
        simp [hf]

theorem mapFormat_ok_forall (parse : String → Option JVal) :
    ∀ (msgs : List Msg) (l : List (Option GTurn)), mapFormat parse msgs = .ok l →
      ∀ m ∈ msgs, ∃ r, formatTurn parse m = .ok r
  | [], _, _ => by intro m hm; exact absurd hm (List.not_mem_nil m)
  | m0 :: ms, l, h => by
    rw [mapFormat] at h
    cases hf : formatTurn parse m0 with
    | error e => rw [hf] at h; exact absurd h (by simp)
    | ok r =>
      rw [hf] at h
      cases hm : mapFormat parse ms with
      | error e => rw [hm] at h; exact absurd h (by simp)
      | ok rs =>
        intro m hmem
        rcases List.mem_cons.mp hmem with rfl | hmem
        · exact ⟨r, hf⟩
        · exact mapFormat_ok_forall parse ms rs hm m hmem

theorem formatHistory_filterMap_eq (parse : String → Option JVal)
    (msgs : List Msg) (out : List GTurn)
    (h : formatHistoryForGemini parse msgs = .ok out) :
    out = msgs.filterMap (fun m =>
      match formatTurn parse m with
      | .ok r => r
      | .error _ => none) := by
  unfold formatHistoryForGemini at h
  cases hm : mapFormat parse msgs with
  | error e => rw [hm] at h; exact absurd h (by simp)
  | ok l =>
    rw [hm] at h
    injection h with h'
    subst h'
    rw [mapFormat_ok_map parse msgs l hm, List.filterMap_map]
    rfl

theorem formatHistory_ok_mapFormat (parse : String → Option JVal)
    (msgs : List Msg) (out : List GTurn)
    (h : formatHistoryForGemini parse msgs = .ok out) :
    ∃ l, mapFormat parse msgs = .ok l := by
  revert h
  unfold formatHistoryForGemini
  cases hm : mapFormat parse msgs with
  | error e => intro h; exact absurd h (by simp)
  | ok l => intro _; exact ⟨l, rfl⟩

theorem formatTurn_unknown_role (parse : String → Option JVal) (msg : Msg)
    (h1 : msg.role ≠ "assistant") (h2 : msg.role ≠ "user")
    (h3 : msg.role ≠ "tool") :
    formatTurn parse msg = .ok none := by
  unfold formatTurn
  rw [if_neg h1, if_neg h2, if_neg h3]

theorem formatTurn_known_role_some (parse : String → Option JVal) (msg : Msg)
    (hrole : msg.role = "user" ∨ msg.role = "assistant" ∨ msg.role = "tool")
    (r : Option GTurn) (h : formatTurn parse msg = .ok r) : ∃ g, r = some g := by
  unfold formatTurn at h
  by_cases ha : msg.role = "assistant"
  · rw [if_pos ha] at h
    by_cases htc : msg.tool_calls.length > 0
    · rw [if_pos htc] at h
      injection h with h'
      exact ⟨_, h'.symm⟩
    · rw [if_neg htc] at h
      injection h with h'
      exact ⟨_, h'.symm⟩
  · rw [if_neg ha] at h
    by_cases hu : msg.role = "user"
    · rw [if_pos hu] at h
      cases hc : msg.content with
      | str s =>
        rw [hc] at h
        injection h with h'
        exact ⟨_, h'.symm⟩
      | blocks bl =>
        rw [hc] at h
        cases bl with
        | nil => injection h with h'; exact ⟨_, h'.symm⟩
        | cons b0 rest =>
          cases b0 with
          | text t => injection h with h'; exact ⟨_, h'.symm⟩
          | other tg => injection h with h'; exact ⟨_, h'.symm⟩
          | tool_result tid rc =>
            cases rc with
            | nil => exact Except.noConfusion h
            | cons rb rtl =>
              cases rb with
              | text t =>
                have h2 : (match parse t with
                    | some j => Except.ok (some (GTurn.mk "function"
                        [GPart.functionResponse tid j]))
                    | none =>
                        (Except.error "JSON.parse: invalid tool_result payload" :
                          Except String (Option GTurn))) = Except.ok r := h
                cases hp : parse t with
                | none => rw [hp] at h2; exact Except.noConfusion h2
                | some j => rw [hp] at h2; injection h2 with h'; exact ⟨_, h'.symm⟩
              | tool_result a b => exact Except.noConfusion h
              | other tg => exact Except.noConfusion h
    · rw [if_neg hu] at h
      by_cases ht : msg.role = "tool"
      · rw [if_pos ht] at h
        cases hc : msg.content with
        | str s =>
          rw [hc] at h
          have h2 : (match parse s with
              | some j => Except.ok (some (GTurn.mk "function"
                  [GPart.functionResponse msg.name j]))
              | none =>
                  (Except.error "JSON.parse: invalid tool content" :
                    Except String (Option GTurn))) = Except.ok r := h
          cases hp : parse s with
          | none => rw [hp] at h2; exact Except.noConfusion h2
          | some j => rw [hp] at h2; injection h2 with h'; exact ⟨_, h'.symm⟩
        | blocks bl => rw [hc] at h; injection h with h'; exact ⟨_, h'.symm⟩
      · rcases hrole with h1 | h1 | h1
        · exact absurd h1 hu
        · exact absurd h1 ha
        · exact absurd h1 ht

/-- C8 — the history translator emits exactly one target-native turn for
each input turn whose role is user, assistant or tool, in input order (the
output is the filterMap of per-turn translation, with no null entries), and
silently omits every turn with any other role, raising no error for it. -/
theorem unknown_role_filtering (parse : String → Option JVal)
    (msgs : List Msg) (out : List GTurn)
    (hok : formatHistoryForGemini parse msgs = .ok out) :
    out = msgs.filterMap (fun m =>
        match formatTurn parse m with
        | .ok r => r
        | .error _ => none)
    ∧ (∀ m ∈ msgs, (m.role = "user" ∨ m.role = "assistant" ∨ m.role = "tool") →
        ∃ g, formatTurn parse m = .ok (some g))
    ∧ (∀ m : Msg, ¬(m.role = "user" ∨ m.role = "assistant" ∨ m.role = "tool") →
        formatTurn parse m = .ok none) := by
  refine ⟨formatHistory_filterMap_eq parse msgs out hok, ?_, ?_⟩
  · intro m hm hrole
    obtain ⟨l, hl⟩ := formatHistory_ok_mapFormat parse msgs out hok
    obtain ⟨r, hr⟩ := mapFormat_ok_forall parse msgs l hl m hm
    obtain ⟨g, hg⟩ := formatTurn_known_role_some parse m hrole r hr
    exact ⟨g, by rw [← hg]; exact hr⟩
  · intro m hrole
    push_neg at hrole
    exact formatTurn_unknown_role parse m hrole.2.1 hrole.1 hrole.2.2

/-- Witness for C8: a history with a "system" turn between a user and an
assistant turn translates to exactly those two turns; the "system" turn maps
to null without error. -/
theorem unknown_role_filtering_witness :
    formatHistoryForGemini (fun _ => some .jnull)
        [Msg.mk "user" (.str "hi") [] "", Msg.mk "system" (.str "x") [] "",
         Msg.mk "assistant" (.str "ok") [] ""]
      = .ok [GTurn.mk "user" [.text "hi"], GTurn.mk "model" [.text "ok"]]
    ∧ formatTurn (fun _ => some .jnull) (Msg.mk "system" (.str "x") [] "")
      = .ok none :=
  ⟨rfl,
   (unknown_role_filtering (fun _ => some .jnull)
      [Msg.mk "user" (.str "hi") [] "", Msg.mk "system" (.str "x") [] "",
       Msg.mk "assistant" (.str "ok") [] ""]
      [GTurn.mk "user" [.text "hi"], GTurn.mk "model" [.text "ok"]] rfl).2.2
     (Msg.mk "system" (.str "x") [] "") (by decide)⟩

/-- C10 — of a user turn whose first content block is a tool_result, only
that first block is translated: one function-response part named by its
`tool_use_id`, whose payload is the parse of the first element of that
block's own content list; all later blocks of the turn are discarded.  A
user turn whose first block is not a tool_result takes the plain-text path
even when a tool_result appears later in its block list. -/
theorem user_first_tool_result_only (parse : String → Option JVal) :
    (∀ (tid t : String) (rc' rest : List Block) (nm : String) (j : JVal),
      parse t = some j →
      formatTurn parse
          (Msg.mk "user" (.blocks (.tool_result tid (.text t :: rc') :: rest)) [] nm)
        = .ok (some (GTurn.mk "function" [.functionResponse tid j])))
    ∧ (∀ (b0 : Block) (rest : List Block) (nm : String),
      (∀ tid c, b0 ≠ .tool_result tid c) →
      formatTurn parse (Msg.mk "user" (.blocks (b0 :: rest)) [] nm)
        = .ok (some (GTurn.mk "user" [.text (textOfBlocks (b0 :: rest))]))) := by
  constructor
  · intro tid t rc' rest nm j hp
    show (match parse t with
      | some j => Except.ok (some (GTurn.mk "function" [GPart.functionResponse tid j]))
      | none =>
          (Except.error "JSON.parse: invalid tool_result payload" :
            Except String (Option GTurn))) = _
    rw [hp]
  · intro b0 rest nm hb0
    cases b0 with
    | text t => rfl
    | other tg => rfl
    | tool_result tid c => exact absurd rfl (hb0 tid c)

/-- Witness for C10: the tool_result head is translated from its first text
element alone (trailing blocks dropped), and a leading text block keeps the
turn on the text path despite a later tool_result block. -/
theorem user_first_tool_result_only_witness :
    formatTurn (fun s => if s = "\x7b\x7d" then some (.jobj []) else none)
        (Msg.mk "user"
          (.blocks [.tool_result "call_1" [.text "\x7b\x7d", .text "junk"],
            .text "trailing"]) [] "")
      = .ok (some (GTurn.mk "function" [.functionResponse "call_1" (.jobj [])]))
    ∧ formatTurn (fun s => if s = "\x7b\x7d" then some (.jobj []) else none)
        (Msg.mk "user" (.blocks [.text "hi", .tool_result "call_1" [.text "\x7b\x7d"]]) [] "")
      = .ok (some (GTurn.mk "user" [.text "hi"])) :=
  ⟨(user_first_tool_result_only (fun s => if s = "\x7b\x7d" then some (.jobj []) else none)).1
      "call_1" "\x7b\x7d" [.text "junk"] [.text "trailing"] "" (.jobj []) rfl,
   by
    have h := (user_first_tool_result_only
        (fun s => if s = "\x7b\x7d" then some (.jobj []) else none)).2
      (.text "hi") [.tool_result "call_1" [.text "\x7b\x7d"]] ""
      (by intro tid c h; cases h)
    simpa [textOfBlocks] using h⟩

theorem formatHistory_mem_out (parse : String → Option JVal)
    (msgs : List Msg) (out : List GTurn)
    (hok : formatHistoryForGemini parse msgs = .ok out)
    (m : Msg) (hm : m ∈ msgs) (t : GTurn)
    (hf : formatTurn parse m = .ok (some t)) : t ∈ out := by
  rw [formatHistory_filterMap_eq parse msgs out hok]
  exact List.mem_filterMap.mpr ⟨m, hm, by rw [hf]⟩

theorem formatTurn_assistant_tool_calls (parse : String → Option JVal) (msg : Msg)
    (ha : msg.role = "assistant") (hne : msg.tool_calls ≠ []) :
    formatTurn parse msg = .ok (some (GTurn.mk "model"
      (msg.tool_calls.map (fun tc => .functionCall tc.name tc.arguments)))) := by
  unfold formatTurn
  rw [if_pos ha, if_pos (List.length_pos.mpr hne)]

theorem formatTurn_user_tool_result_ok (parse : String → Option JVal) (msg : Msg)
    (tid : String) (rc rest : List Block)
    (hu : msg.role = "user") (hc : msg.content = .blocks (.tool_result tid rc :: rest))
    (r : Option GTurn) (h : formatTurn parse msg = .ok r) :
    ∃ t rc' j, rc = .text t :: rc' ∧ parse t = some j
      ∧ r = some (GTurn.mk "function" [.functionResponse tid j]) := by
  unfold formatTurn at h
  have hna : ¬ msg.role = "assistant" := by rw [hu]; decide
  rw [if_neg hna, if_pos hu, hc] at h
  cases rc with
  | nil => exact Except.noConfusion h
  | cons rb rtl =>
    cases rb with
    | text t =>
      have h2 : (match parse t with
          | some j => Except.ok (some (GTurn.mk "function"
              [GPart.functionResponse tid j]))
          | none =>
              (Except.error "JSON.parse: invalid tool_result payload" :
                Except String (Option GTurn))) = Except.ok r := h
      cases hp : parse t with
      | none => rw [hp] at h2; exact Except.noConfusion h2
      | some j =>
        rw [hp] at h2
        injection h2 with h'
        exact ⟨t, rtl, j, rfl, hp, h'.symm⟩
    | tool_result a b => exact Except.noConfusion h
    | other tg => exact Except.noConfusion h

/-- C1 counterexample — the claim fails as stated: in the canonical history
below the assistant's tool call carries invocation identifier "call_7" for
tool "lookup_product", and the tool-result turn references "call_7"; the
translated sequence's function-response name is "call_7" as required, but
the only function-call fragment is named "lookup_product" (the translator
encodes `tool_call.function.name`, never `tool_call.id`), so the reverse
mapping reconstructs a tool-use block whose identifier is "lookup_product",
not "call_7". -/
theorem round_trip_linkage_counterexample :
    formatHistoryForGemini (fun _ => some .jnull)
        [Msg.mk "assistant" (.str "")
           [ToolCall.mk "call_7" "lookup_product" .jnull] "",
         Msg.mk "user" (.blocks [.tool_result "call_7" [.text "null"]]) [] ""]
      = .ok [GTurn.mk "model" [.functionCall "lookup_product" .jnull],
             GTurn.mk "function" [.functionResponse "call_7" .jnull]]
    ∧ toolUseOfFunctionCall "lookup_product" .jnull
      = OutBlock.tool_use "lookup_product" "lookup_product" .jnull
    ∧ ("lookup_product" : String) ≠ "call_7" :=
  ⟨rfl, rfl, by decide⟩

/-- C1 (amended) — round-trip tool linkage holds when the tool call's
invocation identifier equals its tool name (this adapter's convention: the
tool name doubles as the invocation id).  Then the translated sequence
contains a function-response fragment named X, contains the function-call
fragment for that call also named X, and the reverse mapping of that
fragment reconstructs a canonical tool-use block whose identifier is X. -/
theorem round_trip_tool_linkage (parse : String → Option JVal)
    (msgs : List Msg) (out : List GTurn) (i j : Nat) (aMsg uMsg : Msg)
    (tc : ToolCall) (X : String) (rc rest : List Block)
    (hok : formatHistoryForGemini parse msgs = .ok out)
    (hi : msgs.get? i = some aMsg) (hj : msgs.get? j = some uMsg) (hij : i < j)
    (ha : aMsg.role = "assistant") (htc : tc ∈ aMsg.tool_calls)
    (hid : tc.id = X) (hname : tc.name = X)
    (hu : uMsg.role = "user")
    (hc : uMsg.content = .blocks (.tool_result X rc :: rest)) :
    (∃ g ∈ out, ∃ resp, GPart.functionResponse X resp ∈ g.parts)
    ∧ (∃ g ∈ out, GPart.functionCall X tc.arguments ∈ g.parts)
    ∧ toolUseOfFunctionCall X tc.arguments = OutBlock.tool_use X X tc.arguments := by
  have hma : aMsg ∈ msgs := List.get?_mem hi
  have hmu : uMsg ∈ msgs := List.get?_mem hj
  have hane : aMsg.tool_calls ≠ [] := List.ne_nil_of_mem htc
  have haf := formatTurn_assistant_tool_calls parse aMsg ha hane
  have hain := formatHistory_mem_out parse msgs out hok aMsg hma _ haf
  obtain ⟨l, hl⟩ := formatHistory_ok_mapFormat parse msgs out hok
  obtain ⟨ru, hru⟩ := mapFormat_ok_forall parse msgs l hl uMsg hmu
  obtain ⟨t, rc', jv, hrc, hp, hr⟩ :=
    formatTurn_user_tool_result_ok parse uMsg X rc rest hu hc ru hru
  subst hr
  have huin := formatHistory_mem_out parse msgs out hok uMsg hmu _ hru
  refine ⟨⟨_, huin, jv, by simp⟩, ⟨_, hain, ?_⟩, rfl⟩
  show GPart.functionCall X tc.arguments
    ∈ aMsg.tool_calls.map (fun tc => GPart.functionCall tc.name tc.arguments)
  rw [← hname]
  exact List.mem_map_of_mem _ htc

/-- Witness for C1 (amended) at a two-turn history whose invocation id and
tool name coincide ("search_shop_catalog"). -/
theorem round_trip_tool_linkage_witness :
    (∃ g ∈ [GTurn.mk "model" [.functionCall "search_shop_catalog" .jnull],
            GTurn.mk "function" [.functionResponse "search_shop_catalog" (.jobj [])]],
       ∃ resp, GPart.functionResponse "search_shop_catalog" resp ∈ g.parts)
    ∧ (∃ g ∈ [GTurn.mk "model" [.functionCall "search_shop_catalog" .jnull],
              GTurn.mk "function" [.functionResponse "search_shop_catalog" (.jobj [])]],
        GPart.functionCall "search_shop_catalog" .jnull ∈ g.parts)
    ∧ toolUseOfFunctionCall "search_shop_catalog" .jnull
      = OutBlock.tool_use "search_shop_catalog" "search_shop_catalog" .jnull :=
  round_trip_tool_linkage
    (fun s => if s = "\x7b\x7d" then some (.jobj []) else none)
    [Msg.mk "assistant" (.str "")
       [ToolCall.mk "search_shop_catalog" "search_shop_catalog" .jnull] "",
     Msg.mk "user"
       (.blocks [.tool_result "search_shop_catalog" [.text "\x7b\x7d"]]) [] ""]
    [GTurn.mk "model" [.functionCall "search_shop_catalog" .jnull],
     GTurn.mk "function" [.functionResponse "search_shop_catalog" (.jobj [])]]
    0 1
    (Msg.mk "assistant" (.str "")
       [ToolCall.mk "search_shop_catalog" "search_shop_catalog" .jnull] "")
    (Msg.mk "user"
       (.blocks [.tool_result "search_shop_catalog" [.text "\x7b\x7d"]]) [] "")
    (ToolCall.mk "search_shop_catalog" "search_shop_catalog" .jnull)
    "search_shop_catalog" [.text "\x7b\x7d"] []
    rfl rfl rfl (by decide) rfl (by simp) rfl rfl rfl rfl

theorem Heap.write_mem_ne (h : Heap) (a : Nat) (n : HNode) (b : Nat)
    (hne : b ≠ a) : (h.write a n).mem b = h.mem b := by
  unfold Heap.write
  simp [hne]

theorem Heap.alloc_fst_next (h : Heap) (n : HNode) :
    (h.alloc n).1.next = h.next + 1 := rfl

theorem Heap.alloc_fst_mem (h : Heap) (n : HNode) (b : Nat) (hne : b ≠ h.next) :
    (h.alloc n).1.mem b = h.mem b := by
  unfold Heap.alloc
  simp [hne]

theorem Heap.alloc_snd (h : Heap) (n : HNode) : (h.alloc n).2 = h.next := rfl

theorem Heap.setObjField_next (h : Heap) (a : Nat) (k : String) (v : HVal) :
    (h.setObjField a k v).next = h.next := by
  unfold Heap.setObjField
  cases h.mem a with
  | none => rfl
  | some n => cases n with
    | hobj fields => rfl
    | harr elems => rfl

theorem Heap.setObjField_mem_ne (h : Heap) (a : Nat) (k : String) (v : HVal)
    (b : Nat) (hne : b ≠ a) : (h.setObjField a k v).mem b = h.mem b := by
  unfold Heap.setObjField
  cases h.mem a with
  | none => rfl
  | some n => cases n with
    | hobj fields => exact Heap.write_mem_ne h a _ b hne
    | harr elems => rfl

theorem Heap.delObjField_next (h : Heap) (a : Nat) (k : String) :
    (h.delObjField a k).next = h.next := by
  unfold Heap.delObjField
  cases h.mem a with
  | none => rfl
  | some n => cases n with
    | hobj fields => rfl
    | harr elems => rfl

theorem Heap.delObjField_mem_ne (h : Heap) (a : Nat) (k : String)
    (b : Nat) (hne : b ≠ a) : (h.delObjField a k).mem b = h.mem b := by
  unfold Heap.delObjField
  cases h.mem a with
  | none => rfl
  | some n => cases n with
    | hobj fields => exact Heap.write_mem_ne h a _ b hne
    | harr elems => rfl

theorem Heap.pushElem_next (h : Heap) (a : Nat) (v : HVal) :
    (h.pushElem a v).next = h.next := by
  unfold Heap.pushElem
  cases h.mem a with
  | none => rfl
  | some n => cases n with
    | hobj fields => rfl
    | harr elems => rfl

theorem Heap.pushElem_mem_ne (h : Heap) (a : Nat) (v : HVal)
    (b : Nat) (hne : b ≠ a) : (h.pushElem a v).mem b = h.mem b := by
  unfold Heap.pushElem
  cases h.mem a with
  | none => rfl
  | some n => cases n with
    | hobj fields => rfl
    | harr elems => exact Heap.write_mem_ne h a _ b hne

mutual

theorem cleanParametersH_frame :
    ∀ (fuel : Nat) (h : Heap) (v : HVal),
      h.next ≤ (cleanParametersH fuel h v).1.next
      ∧ ∀ b : Nat, b < h.next → (cleanParametersH fuel h v).1.mem b = h.mem b
  | 0, h, v => by simp [cleanParametersH]
  | fuel + 1, h, v => by
    cases v with
    | href a =>
      cases hm : h.mem a with
      | some n =>
        cases n with
        | hobj fields =>
          simp only [cleanParametersH, hm]
          have hf := cleanFieldsH_frame fuel (htypeFieldIsString fields)
            (h.alloc (.hobj [])).2 (h.alloc (.hobj [])).1 fields
          refine ⟨le_trans (Nat.le_succ h.next) (le_of_eq_of_le (Heap.alloc_fst_next h _).symm hf.1), ?_⟩
          intro b hb
          have hbne : b ≠ h.next := Nat.ne_of_lt hb
          have hb1 : b < (h.alloc (.hobj [])).1.next := by
            rw [Heap.alloc_fst_next]
            exact Nat.lt_succ_of_lt hb
          rw [hf.2 b hb1 hbne, Heap.alloc_fst_mem h _ b hbne]
        | harr elems =>
          simp only [cleanParametersH, hm]
          have hf := cleanElemsH_frame fuel (h.alloc (.harr [])).2
            (h.alloc (.harr [])).1 elems
          refine ⟨le_trans (Nat.le_succ h.next) (le_of_eq_of_le (Heap.alloc_fst_next h _).symm hf.1), ?_⟩
          intro b hb
          have hbne : b ≠ h.next := Nat.ne_of_lt hb
          have hb1 : b < (h.alloc (.harr [])).1.next := by
            rw [Heap.alloc_fst_next]
            exact Nat.lt_succ_of_lt hb
          rw [hf.2 b hb1 hbne, Heap.alloc_fst_mem h _ b hbne]
      | none => simp [cleanParametersH, hm]
    | hnull => simp [cleanParametersH]
    | hbool b0 => simp [cleanParametersH]
    | hnum n0 => simp [cleanParametersH]
    | hstr s0 => simp [cleanParametersH]

theorem cleanFieldsH_frame :
    ∀ (fuel : Nat) (ts : Bool) (dst : Nat) (h : Heap) (l : List (String × HVal)),
      h.next ≤ (cleanFieldsH fuel ts dst h l).next
      ∧ ∀ b : Nat, b < h.next → b ≠ dst →
          (cleanFieldsH fuel ts dst h l).mem b = h.mem b
  | fuel, ts, dst, h, [] => by simp [cleanFieldsH]
  | fuel, ts, dst, h, (k, v) :: rest => by
    simp only [cleanFieldsH]
    by_cases h1 : k = "format" ∧ ts = true ∧ hvalIsEnumOrDateTime v = false
    · rw [if_pos h1]
      exact cleanFieldsH_frame fuel ts dst h rest
    · rw [if_neg h1]
      by_cases h2 : k ≠ "additional_properties"
      · rw [if_pos h2]
        have hv := cleanParametersH_frame fuel h v
        have hrest := cleanFieldsH_frame fuel ts dst
          ((cleanParametersH fuel h v).1.setObjField dst k (cleanParametersH fuel h v).2) rest
        constructor
        · refine le_trans hv.1 (le_trans ?_ hrest.1)
          rw [Heap.setObjField_next]
        · intro b hb hbd
          have hb2 : b < ((cleanParametersH fuel h v).1.setObjField dst k
              (cleanParametersH fuel h v).2).next := by
            rw [Heap.setObjField_next]
            exact lt_of_lt_of_le hb hv.1
          rw [hrest.2 b hb2 hbd, Heap.setObjField_mem_ne _ _ _ _ b hbd, hv.2 b hb]
      · rw [if_neg h2]
        exact cleanFieldsH_frame fuel ts dst h rest

theorem cleanElemsH_frame :
    ∀ (fuel : Nat) (dst : Nat) (h : Heap) (l : List HVal),
      h.next ≤ (cleanElemsH fuel dst h l).next
      ∧ ∀ b : Nat, b < h.next → b ≠ dst →
          (cleanElemsH fuel dst h l).mem b = h.mem b
  | fuel, dst, h, [] => by simp [cleanElemsH]
  | fuel, dst, h, v :: rest => by
    simp only [cleanElemsH]
    have hv := cleanParametersH_frame fuel h v
    have hrest := cleanElemsH_frame fuel dst
      ((cleanParametersH fuel h v).1.pushElem dst (cleanParametersH fuel h v).2) rest
    constructor
    · refine le_trans hv.1 (le_trans ?_ hrest.1)
      rw [Heap.pushElem_next]
    · intro b hb hbd
      have hb2 : b < ((cleanParametersH fuel h v).1.pushElem dst
          (cleanParametersH fuel h v).2).next := by
        rw [Heap.pushElem_next]
        exact lt_of_lt_of_le hb hv.1
      rw [hrest.2 b hb2 hbd, Heap.pushElem_mem_ne _ _ _ b hbd, hv.2 b hb]

end

theorem transformToolH_frame (fuel : Nat) (h : Heap) (v : HVal) :
    h.next ≤ (transformToolH fuel h v).1.next
    ∧ ∀ b : Nat, b < h.next → (transformToolH fuel h v).1.mem b = h.mem b := by
  cases v with
  | href a =>
    cases hm : h.mem a with
    | some n =>
      cases n with
      | hobj fields =>
        cases hl : fields.lookup "input_schema" with
        | some sv =>
          by_cases ht : hvalTruthy sv = true
          · simp only [transformToolH, hm, hl]
            rw [if_pos ht]
            simp only [Heap.alloc_snd]
            have hcl := cleanParametersH_frame fuel (h.alloc (.hobj fields)).1 sv
            constructor
            · simp only [Heap.delObjField_next, Heap.setObjField_next]
              exact le_trans (Nat.le_succ h.next)
                (le_of_eq_of_le (Heap.alloc_fst_next h _).symm hcl.1)
            · intro b hb
              have hbne : b ≠ h.next := Nat.ne_of_lt hb
              have hb1 : b < (h.alloc (.hobj fields)).1.next := by
                rw [Heap.alloc_fst_next]
                exact Nat.lt_succ_of_lt hb
              rw [Heap.delObjField_mem_ne _ _ _ b hbne,
                Heap.setObjField_mem_ne _ _ _ _ b hbne,
                hcl.2 b hb1, Heap.alloc_fst_mem h _ b hbne]
          · simp only [transformToolH, hm, hl]
            rw [if_neg ht]
            constructor
            · rw [Heap.alloc_fst_next]
              exact Nat.le_succ h.next
            · intro b hb
              exact Heap.alloc_fst_mem h _ b (Nat.ne_of_lt hb)
        | none =>
          simp only [transformToolH, hm, hl]
          constructor
          · rw [Heap.alloc_fst_next]
            exact Nat.le_succ h.next
          · intro b hb
            exact Heap.alloc_fst_mem h _ b (Nat.ne_of_lt hb)
      | harr elems => simp [transformToolH, hm]
    | none => simp [transformToolH, hm]
  | hnull => exact ⟨le_refl _, fun _ _ => rfl⟩
  | hbool b0 => exact ⟨le_refl _, fun _ _ => rfl⟩
  | hnum n0 => exact ⟨le_refl _, fun _ _ => rfl⟩
  | hstr s0 => exact ⟨le_refl _, fun _ _ => rfl⟩

theorem transformToolsH_frame (fuel : Nat) :
    ∀ (h : Heap) (tools : List HVal),
      h.next ≤ (transformToolsH fuel h tools).1.next
      ∧ ∀ b : Nat, b < h.next → (transformToolsH fuel h tools).1.mem b = h.mem b
  | h, [] => ⟨le_refl _, fun _ _ => rfl⟩
  | h, t :: ts => by
    simp only [transformToolsH]
    have h1 := transformToolH_frame fuel h t
    have h2 := transformToolsH_frame fuel (transformToolH fuel h t).1 ts
    refine ⟨le_trans h1.1 h2.1, ?_⟩
    intro b hb
    rw [h2.2 b (lt_of_lt_of_le hb h1.1), h1.2 b hb]

/-- C9 — the normalizer mutates nothing it was given: running the heap
model of `transformToolsForGemini` leaves every pre-existing address (in
particular every input tool object and every node of its `input_schema`
tree, all of which live below the allocation bound) exactly as it was; the
rename and the recursive cleaning touch only freshly allocated copies. -/
theorem normalizer_no_mutation (fuel : Nat) (h : Heap) (tools : List HVal) :
    h.next ≤ (transformToolsH fuel h tools).1.next
    ∧ ∀ a : Nat, a < h.next → (transformToolsH fuel h tools).1.mem a = h.mem a :=
  transformToolsH_frame fuel h tools

/-- Witness for C9 on a concrete heap: after transforming the tool at
address 0 (schema at address 1), both original nodes are untouched — the
tool still has its `input_schema` key and the schema still has `format` and
`additional_properties`. -/
theorem normalizer_no_mutation_witness :
    ((0 : Nat) < sampleHeap.next ∧ (1 : Nat) < sampleHeap.next)
    ∧ (transformToolsH 9 sampleHeap [.href 0]).1.mem 0
        = some (.hobj [("name", .hstr "t"), ("input_schema", .href 1)])
    ∧ (transformToolsH 9 sampleHeap [.href 0]).1.mem 1
        = some (.hobj [("type", .hstr "string"), ("format", .hstr "email"),
            ("additional_properties", .hstr "x")]) :=
  ⟨⟨by decide, by decide⟩,
   ((normalizer_no_mutation 9 sampleHeap [.href 0]).2 0 (by decide)).trans rfl,
   ((normalizer_no_mutation 9 sampleHeap [.href 0]).2 1 (by decide)).trans rfl⟩
